import Mathlib

/-!
Verification of the Phase I console todo application (task store, command
parser, argument validation and suggestion heuristic).

Python strings are modelled as `List Char`; `str.strip()` is `pyStrip`,
`str.lower()` is `pyLower`, `" ".join` is `joinSpace`.  Methods that can
raise `ValueError` return an `Except` value paired with the state of the
service after the call (unchanged when the exception is raised before any
mutation, exactly as in the source).  The tokenizer of
`EnhancedCommandParser.parse_command` can fail to produce a token (the
`next(filter(None, ...))` expression raises `StopIteration` on an empty
quoted group); parsing is therefore modelled as an `Option`-valued
function.
-/

namespace Todo

/-- Model of Python `str.strip()`: drop leading and trailing whitespace. -/
def pyStrip (s : List Char) : List Char :=
  ((s.dropWhile Char.isWhitespace).reverse.dropWhile Char.isWhitespace).reverse

/-- Model of Python `str.lower()` (ASCII case folding). -/
def pyLower (s : List Char) : List Char :=
  s.map Char.toLower

/-- Model of Python `" ".join(args)`. -/
def joinSpace : List (List Char) → List Char
  | [] => []
  | [w] => w
  | w :: ws => w ++ ' ' :: joinSpace ws

/-- `app/models/task.py`: a task record (`id`, `title`, `completed`). -/
structure Task where
  id : Int
  title : List Char
  completed : Bool
deriving DecidableEq, Repr

/-- `Task.__init__`: validates `task_id > 0` and that the title is nonempty
after stripping; the stored title is the stripped one. -/
def Task.make (task_id : Int) (title : List Char) (completed : Bool) :
    Except (List Char) Task :=
  if task_id ≤ 0 then
    .error ("Task ID must be a positive integer".toList)
  else if pyStrip title = [] then
    .error ("Task title must be a non-empty string".toList)
  else
    .ok ⟨task_id, pyStrip title, completed⟩

instance exceptDecEq {ε α : Type} [DecidableEq ε] [DecidableEq α] :
    DecidableEq (Except ε α) := fun a b =>
  match a, b with
  | .error e, .error f =>
    if h : e = f then .isTrue (by rw [h]) else .isFalse (fun hh => h (by injection hh))
  | .error _, .ok _ => .isFalse (fun hh => Except.noConfusion hh)
  | .ok _, .error _ => .isFalse (fun hh => Except.noConfusion hh)
  | .ok x, .ok y =>
    if h : x = y then .isTrue (by rw [h]) else .isFalse (fun hh => h (by injection hh))

/-- `app/services/task_service.py`: the in-memory store, a task list plus
the `next_id` counter (initially 1). -/
structure TaskService where
  tasks : List Task
  next_id : Int
deriving DecidableEq, Repr

/-- `TaskService.__init__`. -/
def TaskService.init : TaskService := ⟨[], 1⟩

/-- The `ValueError` message raised by `add_task`/`update_task` on a blank
title. -/
def emptyTitleMsg : List Char := "Task title cannot be empty".toList

/-- `TaskService.add_task`: reject a blank title, otherwise construct a task
with the current `next_id`, append it and bump the counter.  The second
component is the state of the service after the call. -/
def add_task (s : TaskService) (title : List Char) :
    Except (List Char) Task × TaskService :=
  if title = [] ∨ pyStrip title = [] then
    (.error emptyTitleMsg, s)
  else
    match Task.make s.next_id (pyStrip title) false with
    | .error e => (.error e, s)
    | .ok t => (.ok t, ⟨s.tasks ++ [t], s.next_id + 1⟩)

/-- `TaskService.get_all_tasks`. -/
def get_all_tasks (s : TaskService) : List Task := s.tasks

/-- `TaskService.get_task_by_id`: linear scan, first match or `none`. -/
def get_task_by_id (s : TaskService) (task_id : Int) : Option Task :=
  s.tasks.find? (fun t => t.id == task_id)

/-- Apply `f` to the first task whose id matches (the in-place mutation of
the object returned by `get_task_by_id`). -/
def setTask (f : Task → Task) (task_id : Int) : List Task → List Task
  | [] => []
  | t :: ts => if t.id == task_id then f t :: ts else t :: setTask f task_id ts

/-- Remove the first task whose id matches (`self.tasks.remove(task)` on the
object returned by `get_task_by_id`). -/
def removeFirst (task_id : Int) : List Task → List Task
  | [] => []
  | t :: ts => if t.id == task_id then ts else t :: removeFirst task_id ts

/-- `TaskService.update_task`: the blank-title check comes first (before the
lookup), then the first matching task has its title replaced in place. -/
def update_task (s : TaskService) (task_id : Int) (new_title : List Char) :
    Except (List Char) (Option Task) × TaskService :=
  if new_title = [] ∨ pyStrip new_title = [] then
    (.error emptyTitleMsg, s)
  else
    match get_task_by_id s task_id with
    | some t =>
        (.ok (some { t with title := pyStrip new_title }),
         ⟨setTask (fun u => { u with title := pyStrip new_title }) task_id s.tasks,
          s.next_id⟩)
    | none => (.ok none, s)

/-- `TaskService.delete_task`. -/
def delete_task (s : TaskService) (task_id : Int) : Bool × TaskService :=
  match get_task_by_id s task_id with
  | some _ => (true, ⟨removeFirst task_id s.tasks, s.next_id⟩)
  | none => (false, s)

/-- `TaskService.complete_task`. -/
def complete_task (s : TaskService) (task_id : Int) : Bool × TaskService :=
  match get_task_by_id s task_id with
  | some _ =>
      (true, ⟨setTask (fun u => { u with completed := true }) task_id s.tasks,
       s.next_id⟩)
  | none => (false, s)

/-- `TaskService.incomplete_task`. -/
def incomplete_task (s : TaskService) (task_id : Int) : Bool × TaskService :=
  match get_task_by_id s task_id with
  | some _ =>
      (true, ⟨setTask (fun u => { u with completed := false }) task_id s.tasks,
       s.next_id⟩)
  | none => (false, s)

/-- `TaskService.get_next_id`. -/
def get_next_id (s : TaskService) : Int := s.next_id

/-!
### The enhanced command parser (`enhanced_cli/command_parser.py`)

`parse_command` tokenizes with `re.finditer` over
`"([^"]*)"|\x27([^\x27]*)\x27|(\S+)`: at each non-whitespace position the
regex matches a double-quoted group (when a closing double quote exists),
else a single-quoted group (when a closing single quote exists), else a
maximal run of non-whitespace characters.  For each match the code takes
the first *truthy* group; a quoted group with empty content is falsy, so
`next(filter(None, ...))` raises `StopIteration` there.  We model each
match as an `Option (List Char)` token (`none` = the crash) and thread the
failure through `seqOpts`.
-/

/-- One tokenization step per regex match; `fuel` only serves termination
and is irrelevant as long as it bounds the input length. -/
def tokenizeAux : Nat → List Char → List (Option (List Char))
  | 0, _ => []
  | _, [] => []
  | fuel + 1, c :: rest =>
    if c.isWhitespace then
      tokenizeAux fuel rest
    else if c = '"' ∧ '"' ∈ rest then
      let content := rest.takeWhile (fun ch => ch != '"')
      (if content = [] then none else some content) ::
        tokenizeAux fuel ((rest.dropWhile (fun ch => ch != '"')).drop 1)
    else if c = '\'' ∧ '\'' ∈ rest then
      let content := rest.takeWhile (fun ch => ch != '\'')
      (if content = [] then none else some content) ::
        tokenizeAux fuel ((rest.dropWhile (fun ch => ch != '\'')).drop 1)
    else
      let word := (c :: rest).takeWhile (fun ch => !ch.isWhitespace)
      some word :: tokenizeAux fuel ((c :: rest).drop word.length)

/-- The token stream of the matching loop in `parse_command`. -/
def tokenizeChars (cs : List Char) : List (Option (List Char)) :=
  tokenizeAux cs.length cs

/-- Sequence the per-match token extractions; `none` anywhere is the
unhandled `StopIteration`. -/
def seqOpts : List (Option (List Char)) → Option (List (List Char))
  | [] => some []
  | none :: _ => none
  | some x :: rest => (seqOpts rest).map (fun parts => x :: parts)

/-- The `valid_commands` dict (insertion order preserved). -/
def valid_commands : List (List Char × List (List Char)) :=
  [("add".toList, ["add".toList]),
   ("list".toList, ["list".toList, "ls".toList]),
   ("update".toList, ["update".toList]),
   ("delete".toList, ["delete".toList]),
   ("complete".toList, ["complete".toList, "done".toList]),
   ("incomplete".toList, ["incomplete".toList, "undo".toList]),
   ("help".toList, ["help".toList, "?".toList]),
   ("exit".toList, ["exit".toList, "quit".toList])]

/-- `self.all_commands`: the aliases flattened in table order. -/
def all_commands : List (List Char) :=
  (valid_commands.map Prod.snd).flatten

/-- `_similarity`'s `common_chars`: over each distinct character of the two
strings, the smaller of the two occurrence counts. -/
def common_chars (s1 s2 : List Char) : Nat :=
  ((s1 ++ s2).dedup).foldl (fun acc c => acc + min (s1.count c) (s2.count c)) 0

/-- `EnhancedCommandParser._similarity`: both strings are lower-cased, the
score is `2 * common_chars / (len1 + len2)`, and 1.0 when both are empty
(exact rational arithmetic in place of Python floats). -/
def similarity (str1 str2 : List Char) : ℚ :=
  if (pyLower str1).length + (pyLower str2).length = 0 then 1
  else (2 * (common_chars (pyLower str1) (pyLower str2) : ℚ)) /
    (((pyLower str1).length + (pyLower str2).length : Nat) : ℚ)

/-- The suggestion line built for a candidate alias. -/
def mkSuggestion (valid_cmd : List Char) : List Char :=
  "Did you mean '".toList ++ valid_cmd ++ "'?".toList

/-- The two generic fallback lines of `_get_command_suggestions`. -/
def genericSuggestions : List (List Char) :=
  [("Available commands: add, list, update, delete, complete, incomplete, help, exit").toList,
   ("Type 'help' for a comprehensive list of commands").toList]

/-- The suggestion-collecting loop of
`EnhancedCommandParser._get_command_suggestions`: for each alias in table
order, append a "Did you mean" line when the alias starts with the typed
text and differs from it, or else when the similarity score exceeds 0.6. -/
def suggestionFold (invalid_command : List Char) : List (List Char) :=
  all_commands.foldl (fun acc valid_cmd =>
    if invalid_command.isPrefixOf valid_cmd && invalid_command != valid_cmd then
      acc ++ [mkSuggestion valid_cmd]
    else if similarity invalid_command valid_cmd > 6/10 then
      acc ++ [mkSuggestion valid_cmd]
    else acc) []

/-- `EnhancedCommandParser._get_command_suggestions`. -/
def get_command_suggestions (invalid_command : List Char) : List (List Char) :=
  if suggestionFold invalid_command = [] then genericSuggestions
  else suggestionFold invalid_command

/-- The generic hint returned for empty input. -/
def helpHint : List Char := "Try typing 'help' for available commands".toList

/-- `EnhancedCommandParser.parse_command`; `none` is the unhandled
`StopIteration` of the token-extraction expression. -/
def parse_command (user_input : List Char) :
    Option (List Char × List (List Char) × Bool × List (List Char)) :=
  let ui := pyStrip user_input
  if ui = [] then some ([], [], false, [helpHint])
  else
    match seqOpts (tokenizeChars ui) with
    | none => none
    | some [] => some ([], [], false, [helpHint])
    | some (p :: args) =>
      let command := pyLower p
      let is_valid := valid_commands.any (fun kv => command ∈ kv.2)
      let suggestions := if is_valid then [] else get_command_suggestions command
      some (command, args, is_valid, suggestions)

/-- The `expected_args` table of `validate_command_args` (canonical command
name, expected count, usage message). -/
def expected_args : List (List Char × Nat × List Char) :=
  [("add".toList, 1, ("Provide a task title in quotes: add \"task title\"").toList),
   ("update".toList, 2, ("Provide task ID and new title: update <id> \"new title\"").toList),
   ("delete".toList, 1, ("Provide task ID: delete <id>").toList),
   ("complete".toList, 1, ("Provide task ID: complete <id>").toList),
   ("incomplete".toList, 1, ("Provide task ID: incomplete <id>").toList),
   ("list".toList, 0, ("No additional arguments needed: list").toList),
   ("help".toList, 0, ("No additional arguments needed: help").toList),
   ("exit".toList, 0, ("No additional arguments needed: exit").toList)]

/-- `EnhancedCommandParser.validate_command_args`: a command not in the
table (every non-canonical alias) passes unconditionally. -/
def validate_command_args (command : List Char) (args : List (List Char)) :
    Bool × List Char :=
  match expected_args.find? (fun e => e.1 == command) with
  | some (_, expected_count, error_msg) =>
      if args.length ≠ expected_count then (false, error_msg) else (true, [])
  | none => (true, [])

/-- `CLIInterface.parse_command`: parse, then invalidate on an arity
mismatch, replacing the suggestions by the usage message. -/
def cli_parse_command (user_input : List Char) :
    Option (List Char × List (List Char) × Bool × List (List Char)) :=
  match parse_command user_input with
  | none => none
  | some (command, args, is_valid, suggestions) =>
    if is_valid then
      let v := validate_command_args command args
      if v.1 then some (command, args, true, suggestions)
      else some (command, args, false, [v.2])
    else some (command, args, is_valid, suggestions)

/-- `CLIInterface.handle_add`: join the argument tokens with single spaces
and call `add_task`; a `ValueError` is caught and leaves the service as the
call left it. -/
def handle_add (s : TaskService) (args : List (List Char)) : TaskService :=
  if args.length < 1 then s
  else (add_task s (joinSpace args)).2

/-!
### Reachable states of the task service

A history list records every id ever handed out by a successful `add`, in
order.  Failed operations leave the service unchanged (the `ValueError`s
are raised before any mutation), so only the successful-`add` transition
extends the history.
-/

/-- The largest id ever assigned (0 when none was). -/
def maxAssigned (h : List Int) : Int := h.foldr max 0

/-- States reachable from the fresh service, together with the ids handed
out so far. -/
inductive ReachableH : TaskService → List Int → Prop where
  | init : ReachableH TaskService.init []
  | add {s h title t s'} : ReachableH s h → add_task s title = (.ok t, s') →
      ReachableH s' (h ++ [t.id])
  | update {s h} (task_id : Int) (new_title : List Char) : ReachableH s h →
      ReachableH (update_task s task_id new_title).2 h
  | delete {s h} (task_id : Int) : ReachableH s h →
      ReachableH (delete_task s task_id).2 h
  | complete {s h} (task_id : Int) : ReachableH s h →
      ReachableH (complete_task s task_id).2 h
  | incomplete {s h} (task_id : Int) : ReachableH s h →
      ReachableH (incomplete_task s task_id).2 h

/-- A service state reachable by some sequence of operations. -/
def Reachable (s : TaskService) : Prop := ∃ h, ReachableH s h

/-- The store invariant carried by every reachable state. -/
def Inv (s : TaskService) (h : List Int) : Prop :=
  s.next_id = maxAssigned h + 1 ∧
  (∀ i ∈ h, 0 < i) ∧
  (∀ i ∈ s.tasks.map Task.id, i ∈ h) ∧
  (s.tasks.map Task.id).Nodup

/-!
### Spec-side restatements (for refinement claims)
-/

/-- A character that is not whitespace and not a quote: it can appear in an
unquoted word token and inside quoted content. -/
def goodChar (c : Char) : Prop :=
  c.isWhitespace = false ∧ c ≠ '"' ∧ c ≠ '\''

instance : DecidablePred goodChar := fun c => by
  unfold goodChar
  infer_instance

/-- A nonempty word of good characters. -/
def goodWord (w : List Char) : Prop :=
  w ≠ [] ∧ ∀ c ∈ w, goodChar c

instance : DecidablePred goodWord := fun w => by
  unfold goodWord
  infer_instance

/-- Modelled from the spec: the similarity score written exactly as the
spec's formula, `2 × (sum over each distinct character of min(count in
input, count in alias)) / (len(input) + len(alias))`. -/
def similarity_spec (s t : List Char) : ℚ :=
  (2 * (((((s ++ t).dedup).map (fun c => min (s.count c) (t.count c))).sum : Nat) : ℚ)) /
    (((s.length + t.length : Nat) : ℚ))

/-- Modelled from the spec: the suggestion behaviour stated
extensionally — one "Did you mean" line per alias, in table order, exactly
for the aliases that start with the typed text (and differ from it) or
whose similarity score exceeds 0.6; the generic two-line fallback when no
alias qualifies. -/
def suggestions_spec (cmd : List Char) : List (List Char) :=
  if all_commands.filter (fun v =>
      decide ((cmd.isPrefixOf v = true ∧ cmd ≠ v) ∨
        similarity_spec cmd v > 6/10)) = [] then
    genericSuggestions
  else
    (all_commands.filter (fun v =>
      decide ((cmd.isPrefixOf v = true ∧ cmd ≠ v) ∨
        similarity_spec cmd v > 6/10))).map mkSuggestion

/-! ### List helpers -/

theorem length_dropWhile_le (p : Char → Bool) :
    ∀ l : List Char, (l.dropWhile p).length ≤ l.length := by
  intro l
  induction l with
  | nil => simp
  | cons c cs ih =>
    rw [List.dropWhile_cons]
    by_cases hc : p c
    · simp only [if_pos hc]
      exact Nat.le_trans ih (Nat.le_succ _)
    · simp [if_neg hc]

theorem takeWhile_append_eq (p : Char → Bool) (xs ys : List Char)
    (hx : ∀ c ∈ xs, p c = true)
    (hy : ys = [] ∨ ∃ d ds, ys = d :: ds ∧ p d = false) :
    (xs ++ ys).takeWhile p = xs := by
  induction xs with
  | nil =>
    rcases hy with rfl | ⟨d, ds, rfl, hd⟩
    · simp
    · simp [List.takeWhile_cons, hd]
  | cons c cs ih =>
    have hc : p c = true := hx c (by simp)
    simp only [List.cons_append, List.takeWhile_cons, hc, if_pos]
    rw [ih (fun a ha => hx a (by simp [ha]))]

theorem dropWhile_append_eq (p : Char → Bool) (xs ys : List Char)
    (hx : ∀ c ∈ xs, p c = true)
    (hy : ys = [] ∨ ∃ d ds, ys = d :: ds ∧ p d = false) :
    (xs ++ ys).dropWhile p = ys := by
  induction xs with
  | nil =>
    rcases hy with rfl | ⟨d, ds, rfl, hd⟩
    · simp
    · simp [List.dropWhile_cons, hd]
  | cons c cs ih =>
    have hc : p c = true := hx c (by simp)
    simp only [List.cons_append, List.dropWhile_cons, hc, if_pos]
    exact ih (fun a ha => hx a (by simp [ha]))

/-! ### Properties of `pyStrip` -/

theorem head?_dropWhile_false (p : Char → Bool) :
    ∀ (l : List Char) (a : Char), (l.dropWhile p).head? = some a → p a = false := by
  intro l
  induction l with
  | nil => intro a h; simp at h
  | cons c cs ih =>
    intro a h
    rw [List.dropWhile_cons] at h
    by_cases hc : p c
    · exact ih a (by rwa [if_pos hc] at h)
    · rw [if_neg hc] at h
      simp only [List.head?_cons, Option.some.injEq] at h
      subst h
      exact Bool.eq_false_iff.mpr hc

theorem dropWhile_eq_self_of_head (p : Char → Bool) (l : List Char)
    (h : ∀ a, l.head? = some a → p a = false) : l.dropWhile p = l := by
  cases l with
  | nil => simp
  | cons c cs =>
    rw [List.dropWhile_cons, if_neg]
    simp [h c rfl]

theorem prefix_head_eq {l₁ l₂ : List Char} (h : l₁ <+: l₂) {a : Char}
    (ha : l₁.head? = some a) : l₂.head? = some a := by
  obtain ⟨r, rfl⟩ := h
  cases l₁ with
  | nil => simp at ha
  | cons c cs => simpa using ha

/-- `pyStrip` is a prefix of the leading-whitespace-stripped list. -/
theorem pyStrip_front (l : List Char) :
    pyStrip l <+: l.dropWhile Char.isWhitespace := by
  have h : ((l.dropWhile Char.isWhitespace).reverse.dropWhile Char.isWhitespace).reverse
      <+: (l.dropWhile Char.isWhitespace).reverse.reverse :=
    List.reverse_prefix.mpr (List.dropWhile_suffix _)
  rw [List.reverse_reverse] at h
  exact h

theorem pyStrip_head_false {l : List Char} {a : Char}
    (h : (pyStrip l).head? = some a) : a.isWhitespace = false := by
  have h2 := prefix_head_eq (pyStrip_front l) h
  exact head?_dropWhile_false Char.isWhitespace l a h2

theorem pyStrip_reverse_head_false {l : List Char} {a : Char}
    (h : (pyStrip l).reverse.head? = some a) : a.isWhitespace = false := by
  unfold pyStrip at h
  rw [List.reverse_reverse] at h
  exact head?_dropWhile_false Char.isWhitespace _ a h

/-- Stripping is idempotent. -/
theorem pyStrip_idem (l : List Char) : pyStrip (pyStrip l) = pyStrip l := by
  have h1 : (pyStrip l).dropWhile Char.isWhitespace = pyStrip l :=
    dropWhile_eq_self_of_head _ _ (fun a ha => pyStrip_head_false ha)
  have h2 : (pyStrip l).reverse.dropWhile Char.isWhitespace = (pyStrip l).reverse :=
    dropWhile_eq_self_of_head _ _ (fun a ha => pyStrip_reverse_head_false ha)
  show (((pyStrip l).dropWhile Char.isWhitespace).reverse.dropWhile
      Char.isWhitespace).reverse = pyStrip l
  rw [h1, h2, List.reverse_reverse]

/-- A list with non-whitespace first and last characters is unchanged by
stripping. -/
theorem pyStrip_eq_self {c : Char} {cs : List Char} {d : Char} {ds : List Char}
    (hrev : (c :: cs).reverse = d :: ds)
    (hc : c.isWhitespace = false) (hd : d.isWhitespace = false) :
    pyStrip (c :: cs) = c :: cs := by
  unfold pyStrip
  rw [List.dropWhile_cons, if_neg (by simp [hc])]
  rw [hrev, List.dropWhile_cons, if_neg (by simp [hd]), ← hrev, List.reverse_reverse]

theorem pyStrip_nil : pyStrip [] = [] := rfl

/-! ### Properties of the tokenizer -/

theorem tokenizeAux_nil : ∀ f : Nat, tokenizeAux f [] = [] := by
  intro f
  cases f <;> rfl

theorem tokenizeAux_ws {c : Char} (f : Nat) (rest : List Char)
    (h : c.isWhitespace = true) :
    tokenizeAux (f + 1) (c :: rest) = tokenizeAux f rest := by
  simp [tokenizeAux, h]

theorem tokenizeAux_dquote (f : Nat) (rest : List Char) (hmem : '"' ∈ rest) :
    tokenizeAux (f + 1) ('"' :: rest) =
      (if rest.takeWhile (fun ch => ch != '"') = [] then none
       else some (rest.takeWhile (fun ch => ch != '"'))) ::
        tokenizeAux f ((rest.dropWhile (fun ch => ch != '"')).drop 1) := by
  simp [tokenizeAux, hmem]

theorem tokenizeAux_squote (f : Nat) (rest : List Char) (hmem : '\'' ∈ rest) :
    tokenizeAux (f + 1) ('\'' :: rest) =
      (if rest.takeWhile (fun ch => ch != '\'') = [] then none
       else some (rest.takeWhile (fun ch => ch != '\''))) ::
        tokenizeAux f ((rest.dropWhile (fun ch => ch != '\'')).drop 1) := by
  have hne : ¬(('\'' : Char) = '"' ∧ '"' ∈ rest) := by
    rintro ⟨h, -⟩
    simp at h
  show (if ('\'' : Char).isWhitespace then _ else _) = _
  rw [if_neg (by decide), if_neg hne, if_pos ⟨rfl, hmem⟩]

theorem tokenizeAux_word {c : Char} (f : Nat) (rest : List Char)
    (hws : c.isWhitespace = false)
    (hq : ¬(c = '"' ∧ '"' ∈ rest)) (hq' : ¬(c = '\'' ∧ '\'' ∈ rest)) :
    tokenizeAux (f + 1) (c :: rest) =
      some ((c :: rest).takeWhile (fun ch => !ch.isWhitespace)) ::
        tokenizeAux f
          ((c :: rest).drop ((c :: rest).takeWhile (fun ch => !ch.isWhitespace)).length) := by
  show (if c.isWhitespace then _ else _) = _
  rw [if_neg (by simp [hws]), if_neg hq, if_neg hq']

theorem tokenizeAux_fuel : ∀ (f₁ f₂ : Nat) (cs : List Char),
    cs.length ≤ f₁ → cs.length ≤ f₂ → tokenizeAux f₁ cs = tokenizeAux f₂ cs := by
  intro f₁
  induction f₁ with
  | zero =>
    intro f₂ cs h₁ _
    rw [List.eq_nil_of_length_eq_zero (Nat.le_zero.mp h₁), tokenizeAux_nil,
      tokenizeAux_nil]
  | succ f ih =>
    intro f₂ cs h₁ h₂
    match cs with
    | [] => rw [tokenizeAux_nil, tokenizeAux_nil]
    | c :: rest =>
      match f₂ with
      | 0 => simp at h₂
      | g + 1 =>
        have hrest₁ : rest.length ≤ f := by
          simpa using Nat.lt_succ_iff.mp (Nat.lt_of_lt_of_le (by simp) h₁)
        have hrest₂ : rest.length ≤ g := by
          simpa using Nat.lt_succ_iff.mp (Nat.lt_of_lt_of_le (by simp) h₂)
        by_cases hws : c.isWhitespace
        · rw [tokenizeAux_ws f rest hws, tokenizeAux_ws g rest hws]
          exact ih g rest hrest₁ hrest₂
        · have hws' : c.isWhitespace = false := Bool.eq_false_iff.mpr hws
          by_cases hq : c = '"' ∧ '"' ∈ rest
          · obtain ⟨rfl, hmem⟩ := hq
            rw [tokenizeAux_dquote f rest hmem, tokenizeAux_dquote g rest hmem]
            have hlen : ((rest.dropWhile (fun ch => ch != '"')).drop 1).length ≤
                rest.length := by
              rw [List.length_drop]
              exact Nat.le_trans (Nat.sub_le _ _) (length_dropWhile_le _ rest)
            rw [ih g _ (Nat.le_trans hlen hrest₁) (Nat.le_trans hlen hrest₂)]
          · by_cases hq' : c = '\'' ∧ '\'' ∈ rest
            · obtain ⟨rfl, hmem⟩ := hq'
              rw [tokenizeAux_squote f rest hmem, tokenizeAux_squote g rest hmem]
              have hlen : ((rest.dropWhile (fun ch => ch != '\'')).drop 1).length ≤
                  rest.length := by
                rw [List.length_drop]
                exact Nat.le_trans (Nat.sub_le _ _) (length_dropWhile_le _ rest)
              rw [ih g _ (Nat.le_trans hlen hrest₁) (Nat.le_trans hlen hrest₂)]
            · rw [tokenizeAux_word f rest hws' hq hq',
                tokenizeAux_word g rest hws' hq hq']
              have hword : (c :: rest).takeWhile (fun ch => !ch.isWhitespace) =
                  c :: rest.takeWhile (fun ch => !ch.isWhitespace) := by
                rw [List.takeWhile_cons, if_pos (by simp [hws'])]
              have hlen :
                  ((c :: rest).drop
                    ((c :: rest).takeWhile (fun ch => !ch.isWhitespace)).length).length ≤
                    rest.length := by
                rw [List.length_drop, hword]
                simp only [List.length_cons]
                omega
              rw [ih g _ (Nat.le_trans hlen hrest₁) (Nat.le_trans hlen hrest₂)]

/-- `tokenizeAux` computes `tokenizeChars` for any sufficient fuel. -/
theorem tokenizeAux_eq_tokenizeChars (f : Nat) (cs : List Char)
    (h : cs.length ≤ f) : tokenizeAux f cs = tokenizeChars cs :=
  tokenizeAux_fuel f cs.length cs h (Nat.le_refl _)

theorem tokenizeChars_nil : tokenizeChars [] = [] := rfl

theorem tokenizeChars_ws {c : Char} (h : c.isWhitespace = true)
    (cs : List Char) : tokenizeChars (c :: cs) = tokenizeChars cs := by
  show tokenizeAux (c :: cs).length (c :: cs) = _
  rw [List.length_cons, tokenizeAux_ws cs.length cs h]
  rfl

/-- A maximal run of good characters followed by end-of-input or whitespace
tokenizes as a single word token. -/
theorem tokenizeChars_word {w rest : List Char} (hw : goodWord w)
    (hrest : rest = [] ∨ ∃ d ds, rest = d :: ds ∧ d.isWhitespace = true) :
    tokenizeChars (w ++ rest) = some w :: tokenizeChars rest := by
  obtain ⟨hne, hgood⟩ := hw
  match w, hne with
  | c :: w', _ =>
    obtain ⟨hcws, hcq, hcq'⟩ := hgood c (by simp)
    have hq : ¬(c = '"' ∧ '"' ∈ w' ++ rest) := fun h => hcq h.1
    have hq' : ¬(c = '\'' ∧ '\'' ∈ w' ++ rest) := fun h => hcq' h.1
    have htake : ((c :: w') ++ rest).takeWhile (fun ch => !ch.isWhitespace) =
        c :: w' := by
      apply takeWhile_append_eq
      · intro a ha
        simp [(hgood a ha).1]
      · rcases hrest with rfl | ⟨d, ds, rfl, hd⟩
        · exact Or.inl rfl
        · exact Or.inr ⟨d, ds, rfl, by simp [hd]⟩
    show tokenizeAux ((c :: w') ++ rest).length ((c :: w') ++ rest) = _
    have hlen : ((c :: w') ++ rest).length = (w' ++ rest).length + 1 := by
      simp
    rw [hlen]
    rw [show ((c :: w') ++ rest) = c :: (w' ++ rest) from rfl,
      tokenizeAux_word _ _ hcws hq hq']
    rw [show (c : Char) :: (w' ++ rest) = (c :: w') ++ rest from rfl, htake]
    rw [show ((c :: w') ++ rest).drop (c :: w').length = rest from
      List.drop_left _ _]
    rw [tokenizeAux_eq_tokenizeChars _ rest (by simp)]

/-- A double-quoted group with nonempty quote-free content tokenizes as a
single token holding the content. -/
theorem tokenizeChars_dquote {T tail : List Char} (hT : ∀ c ∈ T, c ≠ '"')
    (hne : T ≠ []) :
    tokenizeChars ('"' :: (T ++ '"' :: tail)) = some T :: tokenizeChars tail := by
  have hmem : '"' ∈ T ++ '"' :: tail := by simp
  have htake : (T ++ '"' :: tail).takeWhile (fun ch => ch != '"') = T := by
    apply takeWhile_append_eq
    · intro a ha
      exact bne_iff_ne.mpr (hT a ha)
    · exact Or.inr ⟨'"', tail, rfl, by simp⟩
  have hdrop : (T ++ '"' :: tail).dropWhile (fun ch => ch != '"') = '"' :: tail := by
    apply dropWhile_append_eq
    · intro a ha
      exact bne_iff_ne.mpr (hT a ha)
    · exact Or.inr ⟨'"', tail, rfl, by simp⟩
  show tokenizeAux ('"' :: (T ++ '"' :: tail)).length _ = _
  rw [List.length_cons, tokenizeAux_dquote _ _ hmem, htake, hdrop, if_neg hne]
  rw [show ('"' :: tail).drop 1 = tail from rfl]
  rw [tokenizeAux_eq_tokenizeChars _ tail (by simp; omega)]

/-- Unquoted good words separated by single spaces tokenize to one word
token each. -/
theorem tokenizeChars_joinSpace : ∀ ws : List (List Char),
    (∀ w ∈ ws, goodWord w) →
    tokenizeChars (joinSpace ws) = ws.map some := by
  intro ws
  induction ws with
  | nil => intro _; rfl
  | cons w tl ih =>
    intro hws
    cases tl with
    | nil =>
      rw [show joinSpace [w] = w ++ [] by simp [joinSpace]]
      rw [tokenizeChars_word (hws w (by simp)) (Or.inl rfl)]
      rfl
    | cons w₂ tl' =>
      rw [show joinSpace (w :: w₂ :: tl') = w ++ ' ' :: joinSpace (w₂ :: tl')
        from rfl]
      rw [tokenizeChars_word (hws w (by simp))
        (Or.inr ⟨' ', joinSpace (w₂ :: tl'), rfl, by decide⟩)]
      rw [tokenizeChars_ws (by decide)]
      rw [ih (fun u hu => hws u (by simp [hu]))]
      rfl

theorem seqOpts_map_some : ∀ l : List (List Char), seqOpts (l.map some) = some l := by
  intro l
  induction l with
  | nil => rfl
  | cons x tl ih => simp [seqOpts, ih]

/-! ### Properties of `joinSpace` -/

theorem joinSpace_ne_nil : ∀ ws : List (List Char), ws ≠ [] →
    (∀ w ∈ ws, goodWord w) → joinSpace ws ≠ [] := by
  intro ws hne hws
  match ws, hne with
  | [w], _ =>
    show w ≠ []
    exact (hws w (by simp)).1
  | w :: w₂ :: tl, _ =>
    show w ++ ' ' :: joinSpace (w₂ :: tl) ≠ []
    simp

theorem joinSpace_mem : ∀ (ws : List (List Char)) (c : Char),
    c ∈ joinSpace ws → c = ' ' ∨ ∃ w ∈ ws, c ∈ w := by
  intro ws
  induction ws with
  | nil => intro c hc; simp [joinSpace] at hc
  | cons w tl ih =>
    intro c hc
    cases tl with
    | nil =>
      exact Or.inr ⟨w, by simp, hc⟩
    | cons w₂ tl' =>
      rw [show joinSpace (w :: w₂ :: tl') = w ++ ' ' :: joinSpace (w₂ :: tl')
        from rfl] at hc
      rcases List.mem_append.mp hc with hw | hc'
      · exact Or.inr ⟨w, by simp, hw⟩
      · rcases List.mem_cons.mp hc' with rfl | hc''
        · exact Or.inl rfl
        · rcases ih c hc'' with h | ⟨u, hu, hcu⟩
          · exact Or.inl h
          · exact Or.inr ⟨u, by simp [hu], hcu⟩

/-- The join of good words ends in a non-whitespace character. -/
theorem joinSpace_reverse : ∀ ws : List (List Char), ws ≠ [] →
    (∀ w ∈ ws, goodWord w) →
    ∃ d ds, (joinSpace ws).reverse = d :: ds ∧ d.isWhitespace = false := by
  intro ws
  induction ws with
  | nil => intro h; exact absurd rfl h
  | cons w tl ih =>
    intro _ hws
    cases tl with
    | nil =>
      obtain ⟨hne, hgood⟩ := hws w (by simp)
      match hrev : w.reverse with
      | [] => exact absurd (by simpa using hrev) hne
      | d :: ds =>
        refine ⟨d, ds, rfl, ?_⟩
        have hd : d ∈ w := by
          have : d ∈ w.reverse := by rw [hrev]; simp
          simpa using this
        exact (hgood d hd).1
    | cons w₂ tl' =>
      obtain ⟨d, ds, hrev, hd⟩ := ih (by simp) (fun u hu => hws u (by simp [hu]))
      refine ⟨d, ds ++ (' ' :: w.reverse), ?_, hd⟩
      rw [show joinSpace (w :: w₂ :: tl') = w ++ ' ' :: joinSpace (w₂ :: tl')
        from rfl]
      rw [List.reverse_append, List.reverse_cons, hrev]
      simp

/-! ### Assembling `parse_command` -/

/-- When stripping is the identity and tokenization produces total tokens,
`parse_command` returns the lower-cased head as the command and the tail as
the arguments. -/
theorem parse_command_some {input p : List Char} {args : List (List Char)}
    (hstrip : pyStrip input = input) (hne : input ≠ [])
    (htoks : tokenizeChars input = some p :: args.map some) :
    parse_command input =
      some (pyLower p, args,
        valid_commands.any (fun kv => pyLower p ∈ kv.2),
        if valid_commands.any (fun kv => pyLower p ∈ kv.2) then []
        else get_command_suggestions (pyLower p)) := by
  unfold parse_command
  rw [hstrip, if_neg hne, htoks]
  rw [show seqOpts (some p :: args.map some) =
    some (p :: args) by simp [seqOpts, seqOpts_map_some]]

/-- Parsing `add w₁ w₂ …` (unquoted words): one argument token per word. -/
theorem parse_add_unquoted {ws : List (List Char)} (hne : ws ≠ [])
    (hws : ∀ w ∈ ws, goodWord w) :
    parse_command ("add ".toList ++ joinSpace ws) =
      some ("add".toList, ws, true, []) := by
  obtain ⟨d, ds, hrev, hd⟩ := joinSpace_reverse ws hne hws
  rw [show ("add ".toList : List Char) = ['a', 'd', 'd', ' '] from by decide,
    show ("add".toList : List Char) = ['a', 'd', 'd'] from by decide]
  have hrev2 : (('a' : Char) :: (['d', 'd', ' '] ++ joinSpace ws)).reverse =
      d :: (ds ++ [' ', 'd', 'd', 'a']) := by
    rw [show (('a' : Char) :: (['d', 'd', ' '] ++ joinSpace ws)) =
      ['a', 'd', 'd', ' '] ++ joinSpace ws from rfl]
    rw [List.reverse_append, hrev]
    simp
  have hstrip : pyStrip (['a', 'd', 'd', ' '] ++ joinSpace ws) =
      ['a', 'd', 'd', ' '] ++ joinSpace ws :=
    pyStrip_eq_self hrev2 (by decide) hd
  have hne2 : (['a', 'd', 'd', ' '] ++ joinSpace ws) ≠ [] := by simp
  have htoks : tokenizeChars (['a', 'd', 'd', ' '] ++ joinSpace ws) =
      some ['a', 'd', 'd'] :: ws.map some := by
    rw [show (['a', 'd', 'd', ' '] ++ joinSpace ws) =
      ['a', 'd', 'd'] ++ (' ' :: joinSpace ws) from rfl]
    rw [tokenizeChars_word (by decide) (Or.inr ⟨' ', joinSpace ws, rfl, by decide⟩)]
    rw [tokenizeChars_ws (by decide)]
    rw [tokenizeChars_joinSpace ws hws]
  rw [parse_command_some hstrip hne2 htoks]
  rw [show pyLower ['a', 'd', 'd'] = ['a', 'd', 'd'] from by decide]
  rw [show (valid_commands.any (fun kv => ['a', 'd', 'd'] ∈ kv.2)) = true from by decide]
  simp

/-- Parsing `add "w₁ w₂ …"` (quoted): a single argument token with the
spaces inside. -/
theorem parse_add_quoted {ws : List (List Char)} (hne : ws ≠ [])
    (hws : ∀ w ∈ ws, goodWord w) :
    parse_command ("add \"".toList ++ joinSpace ws ++ "\"".toList) =
      some ("add".toList, [joinSpace ws], true, []) := by
  rw [show ("add \"".toList : List Char) = ['a', 'd', 'd', ' ', '"'] from by decide,
    show ("\"".toList : List Char) = ['"'] from by decide,
    show ("add".toList : List Char) = ['a', 'd', 'd'] from by decide]
  have hassoc : ['a', 'd', 'd', ' ', '"'] ++ joinSpace ws ++ ['"'] =
      ['a', 'd', 'd', ' ', '"'] ++ (joinSpace ws ++ ['"']) := by
    rw [List.append_assoc]
  rw [hassoc]
  have hrev2 : (('a' : Char) :: (['d', 'd', ' ', '"'] ++ (joinSpace ws ++ ['"']))).reverse =
      '"' :: ((joinSpace ws).reverse ++ ['"', ' ', 'd', 'd', 'a']) := by
    rw [show (('a' : Char) :: (['d', 'd', ' ', '"'] ++ (joinSpace ws ++ ['"']))) =
      (['a', 'd', 'd', ' ', '"'] ++ joinSpace ws) ++ ['"'] from by simp]
    rw [List.reverse_append, List.reverse_append]
    simp
  have hstrip : pyStrip (['a', 'd', 'd', ' ', '"'] ++ (joinSpace ws ++ ['"'])) =
      ['a', 'd', 'd', ' ', '"'] ++ (joinSpace ws ++ ['"']) :=
    pyStrip_eq_self hrev2 (by decide) (by decide)
  have hne2 : (['a', 'd', 'd', ' ', '"'] ++ (joinSpace ws ++ ['"'])) ≠ [] := by simp
  have hTq : ∀ c ∈ joinSpace ws, c ≠ '"' := by
    intro c hc
    rcases joinSpace_mem ws c hc with rfl | ⟨w, hw, hcw⟩
    · decide
    · exact ((hws w hw).2 c hcw).2.1
  have htoks : tokenizeChars (['a', 'd', 'd', ' ', '"'] ++ (joinSpace ws ++ ['"'])) =
      some ['a', 'd', 'd'] :: [joinSpace ws].map some := by
    rw [show (['a', 'd', 'd', ' ', '"'] ++ (joinSpace ws ++ ['"'])) =
      ['a', 'd', 'd'] ++ (' ' :: ('"' :: (joinSpace ws ++ '"' :: []))) from by simp]
    rw [tokenizeChars_word (by decide)
      (Or.inr ⟨' ', '"' :: (joinSpace ws ++ '"' :: []), rfl, by decide⟩)]
    rw [tokenizeChars_ws (by decide)]
    rw [tokenizeChars_dquote hTq (joinSpace_ne_nil ws hne hws)]
    rfl
  rw [parse_command_some hstrip hne2 htoks]
  rw [show pyLower ['a', 'd', 'd'] = ['a', 'd', 'd'] from by decide]
  rw [show (valid_commands.any (fun kv => ['a', 'd', 'd'] ∈ kv.2)) = true from by decide]
  simp

/-! ### Argument-count validation -/

/-- The arity rule of `add` (stated over the explicit character list the
parser produces). -/
theorem validate_add (args : List (List Char)) :
    validate_command_args ['a', 'd', 'd'] args =
      if args.length = 1 then (true, [])
      else (false, ("Provide a task title in quotes: add \"task title\"").toList) := by
  unfold validate_command_args
  rw [show expected_args.find? (fun e => e.1 == ['a', 'd', 'd']) =
    some ("add".toList, 1,
      ("Provide a task title in quotes: add \"task title\"").toList) from by decide]
  by_cases h : args.length = 1 <;> simp [h]

/-- `CLIInterface.parse_command` on a quoted `add`: accepted, one argument
token. -/
theorem cli_parse_add_quoted {ws : List (List Char)} (hne : ws ≠ [])
    (hws : ∀ w ∈ ws, goodWord w) :
    cli_parse_command ("add \"".toList ++ joinSpace ws ++ "\"".toList) =
      some ("add".toList, [joinSpace ws], true, []) := by
  unfold cli_parse_command
  rw [parse_add_quoted hne hws]
  simp [validate_add]

/-- `CLIInterface.parse_command` on an unquoted multi-word `add`: the arity
check fails and the command is invalidated with the usage message. -/
theorem cli_parse_add_unquoted {ws : List (List Char)} (hne : ws ≠ [])
    (hws : ∀ w ∈ ws, goodWord w) (hlen : ws.length ≠ 1) :
    cli_parse_command ("add ".toList ++ joinSpace ws) =
      some ("add".toList, ws, false,
        [("Provide a task title in quotes: add \"task title\"").toList]) := by
  unfold cli_parse_command
  rw [parse_add_unquoted hne hws]
  simp [validate_add, hlen]

/-! ### The claims -/

/-- C1 (amended).  For every nonempty list of words (no whitespace or
quotes inside a word), the quoted form `add "w₁ … wₖ"` parses to the single
argument token `w₁ … wₖ` and passes arity validation, while the unquoted
form `add w₁ … wₖ` parses to one token per word; with two or more words the
unquoted form FAILS arity validation (which expects exactly one argument
for `add`), so the CLI rejects it with the usage message and never reaches
the dispatcher — no task is created.  `handle_add` itself joins its
argument tokens with single spaces, so on equal joined titles it yields
identical stores. -/
theorem spec_c1 (s : TaskService) (ws : List (List Char))
    (hne : ws ≠ []) (hws : ∀ w ∈ ws, goodWord w) :
    parse_command ("add \"".toList ++ joinSpace ws ++ "\"".toList) =
        some ("add".toList, [joinSpace ws], true, []) ∧
    parse_command ("add ".toList ++ joinSpace ws) =
        some ("add".toList, ws, true, []) ∧
    cli_parse_command ("add \"".toList ++ joinSpace ws ++ "\"".toList) =
        some ("add".toList, [joinSpace ws], true, []) ∧
    (ws.length ≠ 1 →
      cli_parse_command ("add ".toList ++ joinSpace ws) =
        some ("add".toList, ws, false,
          [("Provide a task title in quotes: add \"task title\"").toList])) ∧
    handle_add s [joinSpace ws] = handle_add s ws := by
  refine ⟨parse_add_quoted hne hws, parse_add_unquoted hne hws,
    cli_parse_add_quoted hne hws,
    fun hlen => cli_parse_add_unquoted hne hws hlen, ?_⟩
  unfold handle_add
  rw [if_neg (by simp), if_neg (by simp [List.length_pos, hne])]
  rw [show joinSpace [joinSpace ws] = joinSpace ws from rfl]

/-- C1 counterexample: `add Buy milk` is tokenized into two argument
tokens, and the CLI invalidates it (arity 2 ≠ 1), contradicting the claim
that it "is accepted and creates a task titled Buy milk". -/
theorem spec_c1_counterexample :
    cli_parse_command ("add Buy milk".toList) =
      some ("add".toList, ["Buy".toList, "milk".toList], false,
        [("Provide a task title in quotes: add \"task title\"").toList]) := by
  decide

/-- C1 witness: instantiation of the amended claim at `Buy milk`. -/
theorem spec_c1_witness :
    parse_command ("add \"Buy milk\"".toList) =
        some ("add".toList, ["Buy milk".toList], true, []) ∧
    parse_command ("add Buy milk".toList) =
        some ("add".toList, ["Buy".toList, "milk".toList], true, []) ∧
    cli_parse_command ("add \"Buy milk\"".toList) =
        some ("add".toList, ["Buy milk".toList], true, []) ∧
    cli_parse_command ("add Buy milk".toList) =
        some ("add".toList, ["Buy".toList, "milk".toList], false,
          [("Provide a task title in quotes: add \"task title\"").toList]) ∧
    handle_add TaskService.init ["Buy milk".toList] =
      handle_add TaskService.init ["Buy".toList, "milk".toList] := by
  have h := spec_c1 TaskService.init ["Buy".toList, "milk".toList]
    (by decide) (by decide)
  exact ⟨h.1, h.2.1, h.2.2.1, h.2.2.2.1 (by decide), h.2.2.2.2⟩

/-- C10: on the nonempty input `add ""` the tokenizer's per-match group
extraction finds no truthy group (the quoted content is empty), so
`parse_command` yields no result at all — parsing is partial on raw
input. -/
theorem spec_c10 : parse_command ("add \"\"".toList) = none := by decide

/-- C5 (amended).  For every CANONICAL command name, validation accepts
exactly when the argument count equals the expected count (add 1, update 2,
delete/complete/incomplete 1, list/help/exit 0) and on a mismatch returns
the usage message; but a command recognized through a non-canonical alias
(`ls`, `done`, `undo`, `?`, `quit`) is absent from the arity table and
passes validation with ANY argument list. -/
theorem spec_c5 (args : List (List Char)) :
    (validate_command_args "add".toList args =
      if args.length = 1 then (true, [])
      else (false, ("Provide a task title in quotes: add \"task title\"").toList)) ∧
    (validate_command_args "update".toList args =
      if args.length = 2 then (true, [])
      else (false, ("Provide task ID and new title: update <id> \"new title\"").toList)) ∧
    (validate_command_args "delete".toList args =
      if args.length = 1 then (true, [])
      else (false, ("Provide task ID: delete <id>").toList)) ∧
    (validate_command_args "complete".toList args =
      if args.length = 1 then (true, [])
      else (false, ("Provide task ID: complete <id>").toList)) ∧
    (validate_command_args "incomplete".toList args =
      if args.length = 1 then (true, [])
      else (false, ("Provide task ID: incomplete <id>").toList)) ∧
    (validate_command_args "list".toList args =
      if args.length = 0 then (true, [])
      else (false, ("No additional arguments needed: list").toList)) ∧
    (validate_command_args "help".toList args =
      if args.length = 0 then (true, [])
      else (false, ("No additional arguments needed: help").toList)) ∧
    (validate_command_args "exit".toList args =
      if args.length = 0 then (true, [])
      else (false, ("No additional arguments needed: exit").toList)) ∧
    validate_command_args "ls".toList args = (true, []) ∧
    validate_command_args "done".toList args = (true, []) ∧
    validate_command_args "undo".toList args = (true, []) ∧
    validate_command_args "?".toList args = (true, []) ∧
    validate_command_args "quit".toList args = (true, []) := by
  refine ⟨?_, ?_, ?_, ?_, ?_, ?_, ?_, ?_, ?_, ?_, ?_, ?_, ?_⟩
  · unfold validate_command_args
    rw [show expected_args.find? (fun e => e.1 == "add".toList) =
      some ("add".toList, 1,
        ("Provide a task title in quotes: add \"task title\"").toList) from by decide]
    by_cases h : args.length = 1 <;> simp [h]
  · unfold validate_command_args
    rw [show expected_args.find? (fun e => e.1 == "update".toList) =
      some ("update".toList, 2,
        ("Provide task ID and new title: update <id> \"new title\"").toList) from by decide]
    by_cases h : args.length = 2 <;> simp [h]
  · unfold validate_command_args
    rw [show expected_args.find? (fun e => e.1 == "delete".toList) =
      some ("delete".toList, 1, ("Provide task ID: delete <id>").toList) from by decide]
    by_cases h : args.length = 1 <;> simp [h]
  · unfold validate_command_args
    rw [show expected_args.find? (fun e => e.1 == "complete".toList) =
      some ("complete".toList, 1, ("Provide task ID: complete <id>").toList) from by decide]
    by_cases h : args.length = 1 <;> simp [h]
  · unfold validate_command_args
    rw [show expected_args.find? (fun e => e.1 == "incomplete".toList) =
      some ("incomplete".toList, 1, ("Provide task ID: incomplete <id>").toList) from by decide]
    by_cases h : args.length = 1 <;> simp [h]
  · unfold validate_command_args
    rw [show expected_args.find? (fun e => e.1 == "list".toList) =
      some ("list".toList, 0, ("No additional arguments needed: list").toList) from by decide]
    by_cases h : args.length = 0 <;> simp [h]
  · unfold validate_command_args
    rw [show expected_args.find? (fun e => e.1 == "help".toList) =
      some ("help".toList, 0, ("No additional arguments needed: help").toList) from by decide]
    by_cases h : args.length = 0 <;> simp [h]
  · unfold validate_command_args
    rw [show expected_args.find? (fun e => e.1 == "exit".toList) =
      some ("exit".toList, 0, ("No additional arguments needed: exit").toList) from by decide]
    by_cases h : args.length = 0 <;> simp [h]
  · unfold validate_command_args
    rw [show expected_args.find? (fun e => e.1 == "ls".toList) = none from by decide]
  · unfold validate_command_args
    rw [show expected_args.find? (fun e => e.1 == "done".toList) = none from by decide]
  · unfold validate_command_args
    rw [show expected_args.find? (fun e => e.1 == "undo".toList) = none from by decide]
  · unfold validate_command_args
    rw [show expected_args.find? (fun e => e.1 == "?".toList) = none from by decide]
  · unfold validate_command_args
    rw [show expected_args.find? (fun e => e.1 == "quit".toList) = none from by decide]

/-- C5 counterexample: `ls` is a recognized alias (canonical `list`,
expected count 0), yet validation accepts it with one argument instead of
rejecting it with the usage suggestion. -/
theorem spec_c5_counterexample :
    ("ls".toList ∈ all_commands) ∧
    validate_command_args "ls".toList ["x".toList] = (true, []) := by
  decide

/-- C4: `add` with a blank (empty or whitespace-only) title fails with the
empty-title `ValueError` and leaves the store exactly as it was — no task
appended, `next_id` untouched. -/
theorem spec_c4 (s : TaskService) (title : List Char)
    (h : pyStrip title = []) :
    add_task s title = (.error emptyTitleMsg, s) := by
  unfold add_task
  rw [if_pos (Or.inr h)]

/-- C4 witness: `add "   "` on the fresh store. -/
theorem spec_c4_witness :
    pyStrip ("   ".toList) = [] ∧
    add_task TaskService.init ("   ".toList) =
      (.error emptyTitleMsg, TaskService.init) :=
  ⟨by decide, spec_c4 TaskService.init ("   ".toList) (by decide)⟩

/-! ### The store invariant -/

theorem maxAssigned_nonneg : ∀ h : List Int, 0 ≤ maxAssigned h := by
  intro h
  induction h with
  | nil => exact le_refl 0
  | cons i tl ih => exact le_trans ih (le_max_right i _)

theorem le_maxAssigned {i : Int} : ∀ {h : List Int}, i ∈ h → i ≤ maxAssigned h := by
  intro h
  induction h with
  | nil => intro hi; simp at hi
  | cons j tl ih =>
    intro hi
    rcases List.mem_cons.mp hi with rfl | hi'
    · exact le_max_left _ _
    · exact le_trans (ih hi') (le_max_right _ _)

theorem foldr_max_base : ∀ (h : List Int) (c : Int), 0 ≤ c →
    h.foldr max c = max (h.foldr max 0) c := by
  intro h
  induction h with
  | nil => intro c hc; simp [max_eq_right hc]
  | cons i tl ih =>
    intro c hc
    simp only [List.foldr_cons]
    rw [ih c hc, max_assoc]

theorem maxAssigned_append_singleton (h : List Int) (n : Int) (hn : 0 ≤ n) :
    maxAssigned (h ++ [n]) = max (maxAssigned h) n := by
  unfold maxAssigned
  rw [List.foldr_append]
  simp only [List.foldr_cons, List.foldr_nil]
  rw [max_eq_left hn, foldr_max_base h n hn]

theorem setTask_cons_pos {f : Task → Task} {task_id : Int} {t : Task}
    {ts : List Task} (hb : (t.id == task_id) = true) :
    setTask f task_id (t :: ts) = f t :: ts := by
  unfold setTask
  rw [if_pos hb]

theorem setTask_cons_neg {f : Task → Task} {task_id : Int} {t : Task}
    {ts : List Task} (hb : ¬(t.id == task_id) = true) :
    setTask f task_id (t :: ts) = t :: setTask f task_id ts := by
  simp only [setTask]
  rw [if_neg hb]

theorem setTask_map_id {f : Task → Task} (hf : ∀ u, (f u).id = u.id)
    (task_id : Int) : ∀ l : List Task,
    (setTask f task_id l).map Task.id = l.map Task.id := by
  intro l
  induction l with
  | nil => rfl
  | cons t ts ih =>
    unfold setTask
    by_cases hb : (t.id == task_id) = true
    · rw [if_pos hb]
      simp [hf]
    · rw [if_neg hb]
      simp [ih]

theorem find?_setTask {f : Task → Task} (hf : ∀ u, (f u).id = u.id)
    (task_id : Int) : ∀ l : List Task,
    (setTask f task_id l).find? (fun t => t.id == task_id) =
      (l.find? (fun t => t.id == task_id)).map f := by
  intro l
  induction l with
  | nil => rfl
  | cons t ts ih =>
    by_cases hb : (t.id == task_id) = true
    · rw [setTask_cons_pos hb]
      rw [show (f t :: ts).find? (fun u => u.id == task_id) = some (f t) from
        List.find?_cons_of_pos _ (by rw [hf]; exact hb)]
      rw [show (t :: ts).find? (fun u => u.id == task_id) = some t from
        List.find?_cons_of_pos _ hb]
      rfl
    · rw [setTask_cons_neg hb]
      rw [show (t :: setTask f task_id ts).find? (fun u => u.id == task_id) =
        (setTask f task_id ts).find? (fun u => u.id == task_id) from
        List.find?_cons_of_neg _ hb]
      rw [show (t :: ts).find? (fun u => u.id == task_id) =
        ts.find? (fun u => u.id == task_id) from
        List.find?_cons_of_neg _ hb]
      exact ih

theorem setTask_setTask {f : Task → Task} (hf : ∀ u, (f u).id = u.id)
    (hff : ∀ u, f (f u) = f u) (task_id : Int) : ∀ l : List Task,
    setTask f task_id (setTask f task_id l) = setTask f task_id l := by
  intro l
  induction l with
  | nil => rfl
  | cons t ts ih =>
    by_cases hb : (t.id == task_id) = true
    · rw [setTask_cons_pos hb, setTask_cons_pos (by rw [hf]; exact hb), hff]
    · rw [setTask_cons_neg hb, setTask_cons_neg hb, ih]

theorem removeFirst_sublist (task_id : Int) : ∀ l : List Task,
    List.Sublist (removeFirst task_id l) l := by
  intro l
  induction l with
  | nil => exact List.Sublist.refl []
  | cons t ts ih =>
    unfold removeFirst
    by_cases hb : (t.id == task_id) = true
    · rw [if_pos hb]
      exact List.sublist_cons_self t ts
    · rw [if_neg hb]
      exact List.Sublist.cons₂ t ih

theorem find?_removeFirst {task_id : Int} : ∀ {l : List Task},
    (l.map Task.id).Nodup →
    (removeFirst task_id l).find? (fun t => t.id == task_id) = none := by
  intro l
  induction l with
  | nil => intro _; rfl
  | cons t ts ih =>
    intro hnd
    simp only [List.map_cons, List.nodup_cons] at hnd
    obtain ⟨hnotin, hnd'⟩ := hnd
    unfold removeFirst
    by_cases hb : (t.id == task_id) = true
    · rw [if_pos hb]
      rw [List.find?_eq_none]
      intro u hu hbu
      apply hnotin
      have hu_id : u.id = task_id := eq_of_beq hbu
      have ht_id : t.id = task_id := eq_of_beq hb
      rw [List.mem_map]
      exact ⟨u, hu, by rw [hu_id, ht_id]⟩
    · rw [if_neg hb]
      rw [show (t :: removeFirst task_id ts).find? (fun u => u.id == task_id) =
        (removeFirst task_id ts).find? (fun u => u.id == task_id) from
        List.find?_cons_of_neg _ hb]
      exact ih hnd'

theorem mem_removeFirst {u : Task} {task_id : Int} (hne : u.id ≠ task_id) :
    ∀ {l : List Task}, u ∈ l → u ∈ removeFirst task_id l := by
  intro l
  induction l with
  | nil => intro hu; simp at hu
  | cons t ts ih =>
    intro hu
    unfold removeFirst
    by_cases hb : (t.id == task_id) = true
    · rw [if_pos hb]
      rcases List.mem_cons.mp hu with rfl | hu'
      · exact absurd (eq_of_beq hb) hne
      · exact hu'
    · rw [if_neg hb]
      rcases List.mem_cons.mp hu with rfl | hu'
      · exact List.mem_cons_self u _
      · exact List.mem_cons_of_mem t (ih hu')

/-- Inversion of a successful `add_task`. -/
theorem add_task_ok {s : TaskService} {title : List Char} {t : Task}
    {s' : TaskService} (h : add_task s title = (.ok t, s')) :
    t.id = s.next_id ∧ t.completed = false ∧ s'.tasks = s.tasks ++ [t] ∧
    s'.next_id = s.next_id + 1 ∧ 0 < s.next_id := by
  by_cases hb : (title = [] ∨ pyStrip title = [])
  · rw [add_task, if_pos hb] at h
    simp at h
  · rw [add_task, if_neg hb] at h
    cases hmk : Task.make s.next_id (pyStrip title) false with
    | error e => rw [hmk] at h; simp at h
    | ok u =>
      rw [hmk] at h
      simp only [Prod.mk.injEq, Except.ok.injEq] at h
      obtain ⟨rfl, hs'⟩ := h
      rw [Task.make] at hmk
      by_cases hid : s.next_id ≤ 0
      · rw [if_pos hid] at hmk; simp at hmk
      · rw [if_neg hid] at hmk
        by_cases hti : pyStrip (pyStrip title) = []
        · rw [if_pos hti] at hmk; simp at hmk
        · rw [if_neg hti] at hmk
          simp only [Except.ok.injEq] at hmk
          subst hmk
          exact ⟨rfl, rfl, by rw [← hs'], by rw [← hs'], by omega⟩

/-- The error branch of `add_task` leaves the service untouched. -/
theorem add_task_error {s : TaskService} {title : List Char} {e : List Char}
    {s' : TaskService} (h : add_task s title = (.error e, s')) : s' = s := by
  by_cases hb : (title = [] ∨ pyStrip title = [])
  · rw [add_task, if_pos hb] at h
    exact (Prod.mk.injEq _ _ _ _ ▸ h).2.symm ▸ rfl
  · rw [add_task, if_neg hb] at h
    cases hmk : Task.make s.next_id (pyStrip title) false with
    | error e' =>
      rw [hmk] at h
      simp only [Prod.mk.injEq] at h
      exact h.2.symm
    | ok u => rw [hmk] at h; simp at h

/-! ### Characterizing the four id-based operations -/

theorem update_task_found {s : TaskService} {task_id : Int} {t : Task}
    (h : get_task_by_id s task_id = some t) {nt : List Char}
    (hnt : pyStrip nt ≠ []) :
    update_task s task_id nt =
      (.ok (some { t with title := pyStrip nt }),
       ⟨setTask (fun u => { u with title := pyStrip nt }) task_id s.tasks,
        s.next_id⟩) := by
  have hb : ¬(nt = [] ∨ pyStrip nt = []) := by
    rintro (rfl | hx)
    · exact hnt rfl
    · exact hnt hx
  unfold update_task
  rw [if_neg hb, h]

theorem update_task_notfound {s : TaskService} {task_id : Int}
    (h : get_task_by_id s task_id = none) {nt : List Char}
    (hnt : pyStrip nt ≠ []) :
    update_task s task_id nt = (.ok none, s) := by
  have hb : ¬(nt = [] ∨ pyStrip nt = []) := by
    rintro (rfl | hx)
    · exact hnt rfl
    · exact hnt hx
  unfold update_task
  rw [if_neg hb, h]

theorem update_task_blank {s : TaskService} {task_id : Int} {nt : List Char}
    (hnt : pyStrip nt = []) :
    update_task s task_id nt = (.error emptyTitleMsg, s) := by
  unfold update_task
  rw [if_pos (Or.inr hnt)]

theorem delete_task_found {s : TaskService} {task_id : Int} {t : Task}
    (h : get_task_by_id s task_id = some t) :
    delete_task s task_id = (true, ⟨removeFirst task_id s.tasks, s.next_id⟩) := by
  unfold delete_task
  rw [h]

theorem delete_task_notfound {s : TaskService} {task_id : Int}
    (h : get_task_by_id s task_id = none) :
    delete_task s task_id = (false, s) := by
  unfold delete_task
  rw [h]

theorem complete_task_found {s : TaskService} {task_id : Int} {t : Task}
    (h : get_task_by_id s task_id = some t) :
    complete_task s task_id =
      (true, ⟨setTask (fun u => { u with completed := true }) task_id s.tasks,
       s.next_id⟩) := by
  unfold complete_task
  rw [h]

theorem complete_task_notfound {s : TaskService} {task_id : Int}
    (h : get_task_by_id s task_id = none) :
    complete_task s task_id = (false, s) := by
  unfold complete_task
  rw [h]

theorem incomplete_task_found {s : TaskService} {task_id : Int} {t : Task}
    (h : get_task_by_id s task_id = some t) :
    incomplete_task s task_id =
      (true, ⟨setTask (fun u => { u with completed := false }) task_id s.tasks,
       s.next_id⟩) := by
  unfold incomplete_task
  rw [h]

theorem incomplete_task_notfound {s : TaskService} {task_id : Int}
    (h : get_task_by_id s task_id = none) :
    incomplete_task s task_id = (false, s) := by
  unfold incomplete_task
  rw [h]

/-! ### Invariant preservation -/

theorem inv_init : Inv TaskService.init [] := by
  refine ⟨rfl, ?_, ?_, ?_⟩
  · intro i hi; simp at hi
  · intro i hi; simp [TaskService.init] at hi
  · simp [TaskService.init]

theorem inv_add {s : TaskService} {h : List Int} {title : List Char}
    {t : Task} {s' : TaskService} (hinv : Inv s h)
    (hadd : add_task s title = (.ok t, s')) : Inv s' (h ++ [t.id]) := by
  obtain ⟨hA, hB, hC, hD⟩ := hinv
  obtain ⟨hid, _, htasks, hnext, hpos⟩ := add_task_ok hadd
  have hmax0 : (0 : Int) ≤ maxAssigned h := maxAssigned_nonneg h
  have htid : t.id = maxAssigned h + 1 := by rw [hid, hA]
  have happ : maxAssigned (h ++ [t.id]) = t.id := by
    rw [maxAssigned_append_singleton h t.id (by omega)]
    exact max_eq_right (by omega)
  refine ⟨?_, ?_, ?_, ?_⟩
  · rw [hnext, hA, happ, htid]
  · intro i hi
    rcases List.mem_append.mp hi with hi' | hi''
    · exact hB i hi'
    · rw [List.mem_singleton.mp hi'']
      omega
  · intro i hi
    rw [htasks, List.map_append] at hi
    rcases List.mem_append.mp hi with hi' | hi''
    · exact List.mem_append_left _ (hC i hi')
    · simp only [List.map_cons, List.map_nil, List.mem_singleton] at hi''
      rw [hi'']
      exact List.mem_append_right _ (by simp)
  · rw [htasks, List.map_append, List.nodup_append]
    refine ⟨hD, by simp, ?_⟩
    intro a ha hb
    simp only [List.map_cons, List.map_nil, List.mem_singleton] at hb
    have hle : a ≤ maxAssigned h := le_maxAssigned (hC a ha)
    omega

theorem inv_setTask {s : TaskService} {h : List Int} (hinv : Inv s h)
    {f : Task → Task} (hf : ∀ u, (f u).id = u.id) (task_id : Int) :
    Inv ⟨setTask f task_id s.tasks, s.next_id⟩ h := by
  obtain ⟨hA, hB, hC, hD⟩ := hinv
  have hmap : (setTask f task_id s.tasks).map Task.id = s.tasks.map Task.id :=
    setTask_map_id hf task_id s.tasks
  exact ⟨hA, hB, by rw [show (⟨setTask f task_id s.tasks, s.next_id⟩ :
    TaskService).tasks = setTask f task_id s.tasks from rfl, hmap]; exact hC,
    by rw [show (⟨setTask f task_id s.tasks, s.next_id⟩ :
      TaskService).tasks = setTask f task_id s.tasks from rfl, hmap]; exact hD⟩

theorem inv_removeFirst {s : TaskService} {h : List Int} (hinv : Inv s h)
    (task_id : Int) : Inv ⟨removeFirst task_id s.tasks, s.next_id⟩ h := by
  obtain ⟨hA, hB, hC, hD⟩ := hinv
  have hsub : List.Sublist ((removeFirst task_id s.tasks).map Task.id)
      (s.tasks.map Task.id) := (removeFirst_sublist task_id s.tasks).map Task.id
  exact ⟨hA, hB, fun i hi => hC i (hsub.subset hi), hD.sublist hsub⟩

/-- Every reachable state satisfies the invariant. -/
theorem reachable_inv : ∀ {s : TaskService} {h : List Int},
    ReachableH s h → Inv s h := by
  intro s h hr
  induction hr with
  | init => exact inv_init
  | add hr hadd ih => exact inv_add ih hadd
  | update task_id new_title hr ih =>
    by_cases hnt : pyStrip new_title = []
    · rw [update_task_blank hnt]
      exact ih
    · cases hf : get_task_by_id _ task_id with
      | none => rw [update_task_notfound hf hnt]; exact ih
      | some t =>
        rw [update_task_found hf hnt]
        apply inv_setTask ih
        intro u
        rfl
  | delete task_id hr ih =>
    cases hf : get_task_by_id _ task_id with
    | none => rw [delete_task_notfound hf]; exact ih
    | some t => rw [delete_task_found hf]; exact inv_removeFirst ih task_id
  | complete task_id hr ih =>
    cases hf : get_task_by_id _ task_id with
    | none => rw [complete_task_notfound hf]; exact ih
    | some t =>
      rw [complete_task_found hf]
      apply inv_setTask ih
      intro u
      rfl
  | incomplete task_id hr ih =>
    cases hf : get_task_by_id _ task_id with
    | none => rw [incomplete_task_notfound hf]; exact ih
    | some t =>
      rw [incomplete_task_found hf]
      apply inv_setTask ih
      intro u
      rfl

/-- C2: in every reachable state `next_id` strictly exceeds every stored
task's id; a successful `add` increments it by exactly one, a failed `add`
leaves the whole service untouched, and `update`/`delete`/`complete`/
`incomplete` never change it (so it is never decremented or reused, also
after a `delete`). -/
theorem spec_c2 :
    (∀ s, Reachable s → ∀ t ∈ s.tasks, t.id < s.next_id) ∧
    (∀ (s : TaskService) (title : List Char) (t : Task) (s' : TaskService),
      add_task s title = (.ok t, s') → s'.next_id = s.next_id + 1) ∧
    (∀ (s : TaskService) (title e : List Char) (s' : TaskService),
      add_task s title = (.error e, s') → s' = s) ∧
    (∀ (s : TaskService) (task_id : Int) (nt : List Char),
      (update_task s task_id nt).2.next_id = s.next_id) ∧
    (∀ (s : TaskService) (task_id : Int),
      (delete_task s task_id).2.next_id = s.next_id) ∧
    (∀ (s : TaskService) (task_id : Int),
      (complete_task s task_id).2.next_id = s.next_id) ∧
    (∀ (s : TaskService) (task_id : Int),
      (incomplete_task s task_id).2.next_id = s.next_id) := by
  refine ⟨?_, ?_, ?_, ?_, ?_, ?_, ?_⟩
  · intro s hs t ht
    obtain ⟨h, hr⟩ := hs
    obtain ⟨hA, hB, hC, hD⟩ := reachable_inv hr
    have hmem : t.id ∈ h := hC t.id (List.mem_map.mpr ⟨t, ht, rfl⟩)
    have := le_maxAssigned hmem
    omega
  · intro s title t s' hadd
    exact (add_task_ok hadd).2.2.2.1
  · intro s title e s' hadd
    exact add_task_error hadd
  · intro s task_id nt
    by_cases hnt : pyStrip nt = []
    · rw [update_task_blank hnt]
    · cases hf : get_task_by_id s task_id with
      | none => rw [update_task_notfound hf hnt]
      | some t => rw [update_task_found hf hnt]
  · intro s task_id
    cases hf : get_task_by_id s task_id with
    | none => rw [delete_task_notfound hf]
    | some t => rw [delete_task_found hf]
  · intro s task_id
    cases hf : get_task_by_id s task_id with
    | none => rw [complete_task_notfound hf]
    | some t => rw [complete_task_found hf]
  · intro s task_id
    cases hf : get_task_by_id s task_id with
    | none => rw [incomplete_task_notfound hf]
    | some t => rw [incomplete_task_found hf]

/-- C2 witness: a concrete reachable state (one `add`), a successful `add`,
and a failed `add`. -/
theorem spec_c2_witness :
    (∀ t ∈ ({ tasks := [⟨1, "a".toList, false⟩], next_id := 2 } :
        TaskService).tasks,
      t.id < ({ tasks := [⟨1, "a".toList, false⟩], next_id := 2 } :
        TaskService).next_id) ∧
    ({ tasks := [⟨1, "a".toList, false⟩], next_id := 2 } :
      TaskService).next_id = TaskService.init.next_id + 1 ∧
    TaskService.init = TaskService.init := by
  have hadd : add_task TaskService.init ("a".toList) =
      (.ok ⟨1, "a".toList, false⟩,
       { tasks := [⟨1, "a".toList, false⟩], next_id := 2 }) := by decide
  refine ⟨?_, ?_, ?_⟩
  · exact spec_c2.1 _ ⟨[1], ReachableH.add ReachableH.init hadd⟩
  · exact spec_c2.2.1 _ _ _ _ hadd
  · exact spec_c2.2.2.1 TaskService.init [] emptyTitleMsg TaskService.init
      (by decide)

/-- C3: on every reachable store, `add` with a nonblank title succeeds and
assigns the id `maxAssigned + 1`, one greater than the largest id ever
assigned; with no assignment history (the fresh store) the first id is 1. -/
theorem spec_c3 {s : TaskService} {h : List Int} (hr : ReachableH s h)
    {title : List Char} (hti : pyStrip title ≠ []) :
    ∃ t s', add_task s title = (.ok t, s') ∧ t.id = maxAssigned h + 1 ∧
      (h = [] → t.id = 1) := by
  obtain ⟨hA, hB, hC, hD⟩ := reachable_inv hr
  have hmax0 : (0 : Int) ≤ maxAssigned h := maxAssigned_nonneg h
  have hb : ¬(title = [] ∨ pyStrip title = []) := by
    rintro (rfl | hx)
    · exact hti rfl
    · exact hti hx
  have hmk : Task.make s.next_id (pyStrip title) false =
      .ok ⟨s.next_id, pyStrip (pyStrip title), false⟩ := by
    unfold Task.make
    rw [if_neg (by omega), if_neg (by rw [pyStrip_idem]; exact hti)]
  have hadd : add_task s title =
      (.ok ⟨s.next_id, pyStrip (pyStrip title), false⟩,
       ⟨s.tasks ++ [⟨s.next_id, pyStrip (pyStrip title), false⟩],
        s.next_id + 1⟩) := by
    rw [add_task, if_neg hb, hmk]
  refine ⟨⟨s.next_id, pyStrip (pyStrip title), false⟩, _, hadd, hA, ?_⟩
  intro hh
  show s.next_id = 1
  rw [hA, hh]
  decide

/-- C3 witness: the first `add` on the fresh store assigns id 1. -/
theorem spec_c3_witness :
    pyStrip ("a".toList) ≠ [] ∧
    ∃ t s', add_task TaskService.init ("a".toList) = (.ok t, s') ∧
      t.id = maxAssigned [] + 1 ∧ (([] : List Int) = [] → t.id = 1) :=
  ⟨by decide, spec_c3 ReachableH.init (by decide)⟩

/-- C6 (amended): on an id absent from the store, `delete`, `complete` and
`incomplete` signal not-found and leave the store unchanged, and `update`
signals not-found for every title that passes the blank check; but because
`update_task` validates the title BEFORE looking the id up, `update` with a
blank title raises the empty-title `ValueError` even when the id does not
exist. -/
theorem spec_c6 (s : TaskService) (task_id : Int)
    (h : get_task_by_id s task_id = none) :
    (∀ title, pyStrip title ≠ [] →
      update_task s task_id title = (.ok none, s)) ∧
    (∀ title, pyStrip title = [] →
      update_task s task_id title = (.error emptyTitleMsg, s)) ∧
    delete_task s task_id = (false, s) ∧
    complete_task s task_id = (false, s) ∧
    incomplete_task s task_id = (false, s) :=
  ⟨fun _ hnt => update_task_notfound h hnt,
   fun _ hnt => update_task_blank hnt,
   delete_task_notfound h, complete_task_notfound h, incomplete_task_notfound h⟩

/-- C6 counterexample: id 5 is absent from the fresh store, yet
`update(5, "")` raises the empty-title validation error instead of
signalling not-found. -/
theorem spec_c6_counterexample :
    get_task_by_id TaskService.init 5 = none ∧
    update_task TaskService.init 5 [] =
      (.error emptyTitleMsg, TaskService.init) := by
  decide

/-- C6 witness: the amended claim at the fresh store and id 5. -/
theorem spec_c6_witness :
    update_task TaskService.init 5 ("b".toList) = (.ok none, TaskService.init) ∧
    update_task TaskService.init 5 ("  ".toList) =
      (.error emptyTitleMsg, TaskService.init) ∧
    delete_task TaskService.init 5 = (false, TaskService.init) ∧
    complete_task TaskService.init 5 = (false, TaskService.init) ∧
    incomplete_task TaskService.init 5 = (false, TaskService.init) := by
  have h := spec_c6 TaskService.init 5 (by decide)
  exact ⟨h.1 ("b".toList) (by decide), h.2.1 ("  ".toList) (by decide),
    h.2.2.1, h.2.2.2.1, h.2.2.2.2⟩

/-- C7: for a stored id, `complete` then `incomplete` leaves the task's
flag false; `complete` marks the task true and is idempotent — on an
already-completed store state it succeeds and changes nothing. -/
theorem spec_c7 (s : TaskService) (task_id : Int) (t : Task)
    (h : get_task_by_id s task_id = some t) :
    (∃ u, get_task_by_id
        (incomplete_task (complete_task s task_id).2 task_id).2 task_id =
        some u ∧ u.completed = false) ∧
    (∃ v, get_task_by_id (complete_task s task_id).2 task_id = some v ∧
        v.completed = true) ∧
    complete_task (complete_task s task_id).2 task_id =
      (true, (complete_task s task_id).2) := by
  have hcid : ∀ u : Task,
      ((fun u : Task => { u with completed := true }) u).id = u.id :=
    fun u => rfl
  have hiid : ∀ u : Task,
      ((fun u : Task => { u with completed := false }) u).id = u.id :=
    fun u => rfl
  have hcomp := complete_task_found h
  have hfind1 : get_task_by_id (complete_task s task_id).2 task_id =
      some { t with completed := true } := by
    rw [hcomp]
    show (setTask _ task_id s.tasks).find? _ = _
    rw [find?_setTask hcid task_id s.tasks]
    rw [show s.tasks.find? (fun u => u.id == task_id) = some t from h]
    rfl
  refine ⟨?_, ⟨{ t with completed := true }, hfind1, rfl⟩, ?_⟩
  · have hinc := incomplete_task_found hfind1
    have hfind1' : (complete_task s task_id).2.tasks.find?
        (fun u => u.id == task_id) = some { t with completed := true } := hfind1
    refine ⟨{ t with completed := false }, ?_, rfl⟩
    rw [hinc]
    show (setTask _ task_id (complete_task s task_id).2.tasks).find? _ = _
    rw [find?_setTask hiid task_id _, hfind1']
    rfl
  · have hcomp2 := complete_task_found hfind1
    have h2 : (complete_task s task_id).2 =
        ⟨setTask (fun u : Task => { u with completed := true }) task_id s.tasks,
         s.next_id⟩ := by
      rw [hcomp]
    rw [hcomp2, h2]
    dsimp only
    rw [setTask_setTask hcid (fun u => rfl) task_id s.tasks]

/-- C7 witness: a one-task store with id 1. -/
theorem spec_c7_witness :
    (∃ u, get_task_by_id
        (incomplete_task
          (complete_task ⟨[⟨1, "a".toList, false⟩], 2⟩ 1).2 1).2 1 =
        some u ∧ u.completed = false) ∧
    (∃ v, get_task_by_id (complete_task ⟨[⟨1, "a".toList, false⟩], 2⟩ 1).2 1 =
        some v ∧ v.completed = true) ∧
    complete_task (complete_task ⟨[⟨1, "a".toList, false⟩], 2⟩ 1).2 1 =
      (true, (complete_task ⟨[⟨1, "a".toList, false⟩], 2⟩ 1).2) :=
  spec_c7 ⟨[⟨1, "a".toList, false⟩], 2⟩ 1 ⟨1, "a".toList, false⟩ (by decide)

/-- C8: deleting a stored id (in a reachable state) succeeds, makes the id
unfindable, and the remaining tasks are exactly the others, values and
relative order untouched (`Sublist` of the old list), with `next_id`
unchanged. -/
theorem spec_c8 (s : TaskService) (task_id : Int) (t : Task)
    (hreach : Reachable s) (h : get_task_by_id s task_id = some t) :
    (delete_task s task_id).1 = true ∧
    get_task_by_id (delete_task s task_id).2 task_id = none ∧
    List.Sublist (delete_task s task_id).2.tasks s.tasks ∧
    (∀ u ∈ s.tasks, u.id ≠ task_id → u ∈ (delete_task s task_id).2.tasks) ∧
    (delete_task s task_id).2.next_id = s.next_id := by
  obtain ⟨hh, hr⟩ := hreach
  obtain ⟨hA, hB, hC, hD⟩ := reachable_inv hr
  rw [delete_task_found h]
  refine ⟨rfl, ?_, ?_, ?_, rfl⟩
  · show (removeFirst task_id s.tasks).find? _ = none
    exact find?_removeFirst hD
  · exact removeFirst_sublist task_id s.tasks
  · intro u hu hne
    exact mem_removeFirst hne hu

/-- C8 witness: deleting id 1 from a reachable two-task store keeps id 2
untouched. -/
theorem spec_c8_witness :
    (delete_task ⟨[⟨1, "a".toList, false⟩, ⟨2, "b".toList, false⟩], 3⟩ 1).1 =
      true ∧
    get_task_by_id
      (delete_task ⟨[⟨1, "a".toList, false⟩, ⟨2, "b".toList, false⟩], 3⟩ 1).2
      1 = none ∧
    List.Sublist
      (delete_task ⟨[⟨1, "a".toList, false⟩, ⟨2, "b".toList, false⟩], 3⟩ 1).2.tasks
      [⟨1, "a".toList, false⟩, ⟨2, "b".toList, false⟩] ∧
    (⟨2, "b".toList, false⟩ : Task) ∈
      (delete_task ⟨[⟨1, "a".toList, false⟩, ⟨2, "b".toList, false⟩], 3⟩ 1).2.tasks ∧
    (delete_task ⟨[⟨1, "a".toList, false⟩, ⟨2, "b".toList, false⟩], 3⟩ 1).2.next_id =
      3 := by
  have hreach : Reachable ⟨[⟨1, "a".toList, false⟩, ⟨2, "b".toList, false⟩], 3⟩ := by
    refine ⟨[1, 2], ?_⟩
    have h1 : add_task TaskService.init ("a".toList) =
        (.ok ⟨1, "a".toList, false⟩, ⟨[⟨1, "a".toList, false⟩], 2⟩) := by decide
    have h2 : add_task ⟨[⟨1, "a".toList, false⟩], 2⟩ ("b".toList) =
        (.ok ⟨2, "b".toList, false⟩,
         ⟨[⟨1, "a".toList, false⟩, ⟨2, "b".toList, false⟩], 3⟩) := by decide
    exact ReachableH.add (ReachableH.add ReachableH.init h1) h2
  have h := spec_c8 ⟨[⟨1, "a".toList, false⟩, ⟨2, "b".toList, false⟩], 3⟩ 1
    ⟨1, "a".toList, false⟩ hreach (by decide)
  exact ⟨h.1, h.2.1, h.2.2.1, h.2.2.2.1 ⟨2, "b".toList, false⟩ (by simp)
    (by decide), h.2.2.2.2⟩

/-! ### The suggestion heuristic (C9) -/

theorem foldl_add_sum (g : Char → Nat) : ∀ (l : List Char) (init : Nat),
    l.foldl (fun acc c => acc + g c) init = init + (l.map g).sum := by
  intro l
  induction l with
  | nil => intro init; simp
  | cons c tl ih =>
    intro init
    simp only [List.foldl_cons, List.map_cons, List.sum_cons]
    rw [ih]
    omega

theorem common_chars_eq_sum (a b : List Char) :
    common_chars a b =
      (((a ++ b).dedup).map (fun c => min (a.count c) (b.count c))).sum := by
  unfold common_chars
  rw [foldl_add_sum]
  exact Nat.zero_add _

theorem similarity_eq_spec {a b : List Char} (ha : pyLower a = a)
    (hb : pyLower b = b) (hbne : b ≠ []) :
    similarity a b = similarity_spec a b := by
  unfold similarity similarity_spec
  rw [ha, hb]
  have htot : a.length + b.length ≠ 0 := by
    cases b with
    | nil => exact absurd rfl hbne
    | cons x xs => simp
  rw [if_neg htot, common_chars_eq_sum]

theorem fold_branch (cmd : List Char) (acc : List (List Char)) (v : List Char) :
    (if cmd.isPrefixOf v && cmd != v then acc ++ [mkSuggestion v]
     else if similarity cmd v > 6/10 then acc ++ [mkSuggestion v]
     else acc) =
    (if ((cmd.isPrefixOf v && cmd != v) = true ∨ similarity cmd v > 6/10) then
      acc ++ [mkSuggestion v] else acc) := by
  by_cases h1 : (cmd.isPrefixOf v && cmd != v) = true
  · rw [if_pos h1, if_pos (Or.inl h1)]
  · rw [if_neg h1]
    by_cases h2 : similarity cmd v > 6/10
    · rw [if_pos h2, if_pos (Or.inr h2)]
    · rw [if_neg h2, if_neg ?_]
      rintro (hh | hh)
      · exact h1 hh
      · exact h2 hh

theorem foldl_filter {α β : Type} (p : α → Prop) [DecidablePred p] (f : α → β) :
    ∀ (l : List α) (acc : List β),
      l.foldl (fun a x => if p x then a ++ [f x] else a) acc =
        acc ++ (l.filter (fun x => decide (p x))).map f := by
  intro l
  induction l with
  | nil => intro acc; simp
  | cons x tl ih =>
    intro acc
    by_cases hx : p x
    · simp only [List.foldl_cons, if_pos hx]
      rw [ih]
      simp [List.filter_cons, hx]
    · simp only [List.foldl_cons, if_neg hx]
      rw [ih]
      simp [List.filter_cons, hx]

theorem suggestionFold_eq (cmd : List Char) :
    suggestionFold cmd =
      (all_commands.filter (fun v =>
        decide ((cmd.isPrefixOf v && cmd != v) = true ∨
          similarity cmd v > 6/10))).map mkSuggestion := by
  unfold suggestionFold
  have hfun : (fun (acc : List (List Char)) (valid_cmd : List Char) =>
      if cmd.isPrefixOf valid_cmd && cmd != valid_cmd then
        acc ++ [mkSuggestion valid_cmd]
      else if similarity cmd valid_cmd > 6/10 then acc ++ [mkSuggestion valid_cmd]
      else acc) =
      (fun (acc : List (List Char)) (v : List Char) =>
        if ((cmd.isPrefixOf v && cmd != v) = true ∨ similarity cmd v > 6/10) then
          acc ++ [mkSuggestion v] else acc) :=
    funext fun acc => funext fun v => fold_branch cmd acc v
  rw [hfun, foldl_filter]
  rfl

theorem filter_pred_eq (cmd : List Char) (h : pyLower cmd = cmd) :
    all_commands.filter (fun v =>
      decide ((cmd.isPrefixOf v && cmd != v) = true ∨ similarity cmd v > 6/10)) =
    all_commands.filter (fun v =>
      decide ((cmd.isPrefixOf v = true ∧ cmd ≠ v) ∨
        similarity_spec cmd v > 6/10)) := by
  apply List.filter_congr
  intro v hv
  have hall : ∀ u ∈ all_commands, pyLower u = u ∧ u ≠ [] := by decide
  obtain ⟨hvl, hvne⟩ := hall v hv
  rw [decide_eq_decide]
  constructor
  · rintro (h1 | h1)
    · rw [Bool.and_eq_true] at h1
      exact Or.inl ⟨h1.1, bne_iff_ne.mp h1.2⟩
    · rw [similarity_eq_spec h hvl hvne] at h1
      exact Or.inr h1
  · rintro (h1 | h1)
    · rw [Bool.and_eq_true]
      exact Or.inl ⟨h1.1, bne_iff_ne.mpr h1.2⟩
    · rw [← similarity_eq_spec h hvl hvne] at h1
      exact Or.inr h1

/-- C9: for every lower-case command string (the parser always lower-cases
before suggesting), the suggestion routine emits "Did you mean '<alias>'?"
for exactly the aliases, in table order, that start with the typed text and
differ from it, or whose similarity score
`2 × (sum over distinct characters of min counts) / (len input + len
alias)` exceeds 0.6; when no alias qualifies it emits the generic command
list plus the help hint. -/
theorem spec_c9 (cmd : List Char) (h : pyLower cmd = cmd) :
    get_command_suggestions cmd = suggestions_spec cmd := by
  unfold get_command_suggestions suggestions_spec
  rw [suggestionFold_eq cmd, filter_pred_eq cmd h]
  by_cases hq : all_commands.filter (fun v =>
      decide ((cmd.isPrefixOf v = true ∧ cmd ≠ v) ∨
        similarity_spec cmd v > 6/10)) = []
  · rw [hq]
    simp
  · rw [if_neg hq, if_neg ?_]
    intro hmap
    exact hq (List.map_eq_nil_iff.mp hmap)

/-- C9 witness: the typo `lst` (already lower-case). -/
theorem spec_c9_witness :
    pyLower ("lst".toList) = "lst".toList ∧
    get_command_suggestions ("lst".toList) = suggestions_spec ("lst".toList) :=
  ⟨by decide, spec_c9 ("lst".toList) (by decide)⟩

end Todo

